import Mathlib

/-!
# Verified model of the Mandelbrot text renderer

Shallow embedding of the single C++ source file of this repository
(`cpp_example_102e19.cpp`): the escape-time evaluator `mandelbrot`, the
coordinate mapper `pixelToComplex`, the color selector `getColor`, and
the frame renderer `renderMandelbrot`.

Modelling conventions:
* A `std::complex<double>` is a pair `ℚ × ℚ` (real part, imaginary part),
  with the `double` arithmetic idealised as exact rational arithmetic.
* The escape test `std::abs(z) > 2.0` is embedded as `4 < normSq z`,
  where `normSq z = z.re² + z.im²`; over exact arithmetic the two are
  equivalent (`|z| > 2 ↔ |z|² > 4` since both sides are nonnegative),
  and the squared form stays inside ℚ.
* The `for (int i = 0; i < MAX_ITERATIONS; ++i)` loop is a structural
  recursion on the remaining iteration budget (`fuel`), with the loop
  counter `i` carried alongside; the reassignment `z = z * z + c` is
  modelled by passing the updated orbit value to the recursive call.
* `mandelbrot` returns a value and also writes the same variable through
  an `int&` output parameter; the embedding returns the pair
  (returned value, value written to the output parameter).
* The characters the renderer writes to `std::cout` are collected into a
  `List (List Char)`: one inner list per row, the row boundary standing
  for the `std::endl` printed after each row.
-/

/-- Grid width in pixels (`const int WIDTH = 800`). -/
def WIDTH : ℕ := 800

/-- Grid height in pixels (`const int HEIGHT = 600`). -/
def HEIGHT : ℕ := 600

/-- Iteration cap of the escape-time loop (`const int MAX_ITERATIONS = 100`). -/
def MAX_ITERATIONS : ℕ := 100

/-- Squared magnitude of a complex value: `|z|²`.  The source computes
`std::abs(z) = sqrt(re² + im²)` and compares it with `2.0`; the embedding
compares `normSq z` with `4`, which is equivalent over exact arithmetic. -/
def normSq (z : ℚ × ℚ) : ℚ := z.1 * z.1 + z.2 * z.2

/-- One orbit update `z ← z * z + c`, with `std::complex` multiplication
spelled out: `(a+bi)·(a+bi) = a·a − b·b + (a·b + b·a)i`. -/
def step (c z : ℚ × ℚ) : ℚ × ℚ :=
  (z.1 * z.1 - z.2 * z.2 + c.1, z.1 * z.2 + z.2 * z.1 + c.2)

/-- The loop body of `mandelbrot`.  `i` is the C++ loop counter, `fuel` the
number of loop iterations still allowed (`MAX_ITERATIONS - i` at entry).
Returns the pair (value returned, value written to the `iterations` output
parameter); the two branches mirror `iterations = i; return i;` and, after
the loop, `iterations = MAX_ITERATIONS; return MAX_ITERATIONS;`. -/
def mandelbrotGo (c : ℚ × ℚ) (z : ℚ × ℚ) (i fuel : ℕ) : ℕ × ℕ :=
  match fuel with
  | 0 => (MAX_ITERATIONS, MAX_ITERATIONS)
  | fuel + 1 =>
    if 4 < normSq (step c z) then (i, i)
    else mandelbrotGo c (step c z) (i + 1) fuel

/-- `int mandelbrot(const std::complex<double>& c, int& iterations)`:
the pair (returned value, value left in the output parameter). -/
def mandelbrotPair (c : ℚ × ℚ) : ℕ × ℕ :=
  mandelbrotGo c (0, 0) 0 MAX_ITERATIONS

/-- The value `mandelbrot` returns. -/
def mandelbrot (c : ℚ × ℚ) : ℕ := (mandelbrotPair c).1

/-- The orbit of the quadratic map from an arbitrary start `z`:
`orbitFrom c z n` is `z` after `n` updates `z ← z * z + c`. -/
def orbitFrom (c z : ℚ × ℚ) : ℕ → ℚ × ℚ
  | 0 => z
  | n + 1 => step c (orbitFrom c z n)

/-- The orbit the evaluator inspects: `orbit c n` is the value of `z`
after `n` loop iterations starting from `z₀ = 0`. -/
def orbit (c : ℚ × ℚ) (n : ℕ) : ℚ × ℚ := orbitFrom c (0, 0) n

/-- `std::complex<double> pixelToComplex(int x, int y, double zoom,
double offsetX, double offsetY)`.  The two reassignments of `real` and
`imag` in the source are modelled by the second pair of `let`s. -/
def pixelToComplex (x y : ℕ) (zoom offsetX offsetY : ℚ) : ℚ × ℚ :=
  let real := (x : ℚ) / (WIDTH : ℚ) * 4 - 2
  let imag := (y : ℚ) / (HEIGHT : ℚ) * 4 - 2
  let real2 := real / zoom + offsetX
  let imag2 := imag / zoom + offsetY
  (real2, imag2)

/-- `struct Color { int r, g, b; }`.  The fields are naturals: every value
the program stores in them is nonnegative. -/
structure Color where
  r : ℕ
  g : ℕ
  b : ℕ
deriving DecidableEq, Repr

/-- `Color getColor(int iterations)`. -/
def getColor (iterations : ℕ) : Color :=
  if iterations = MAX_ITERATIONS then ⟨0, 0, 0⟩
  else
    let hue := iterations * 10 % 256
    ⟨hue, hue / 2, hue / 4⟩

/-- The character the renderer prints for pixel `(x, y)`: the renderer
discards the return value of `mandelbrot` and branches on the
`iterations` output parameter; the result of `getColor` is computed and
then never used. -/
def pixelChar (zoom offsetX offsetY : ℚ) (x y : ℕ) : Char :=
  let c := pixelToComplex x y zoom offsetX offsetY
  let iterations := (mandelbrotPair c).2
  let _color := getColor iterations
  if iterations = MAX_ITERATIONS then ' ' else '*'

/-- One row of output: the `for (int x = 0; x < WIDTH; ++x)` scan. -/
def renderRow (zoom offsetX offsetY : ℚ) (y : ℕ) : List Char :=
  (List.range WIDTH).map fun x => pixelChar zoom offsetX offsetY x y

/-- `void renderMandelbrot(double zoom, double offsetX, double offsetY)`:
the rows printed by the `y` scan, one inner list per printed line. -/
def renderMandelbrot (zoom offsetX offsetY : ℚ) : List (List Char) :=
  (List.range HEIGHT).map fun y => renderRow zoom offsetX offsetY y

/-! ## Loop lemmas shared by several claims -/

/-- Unfolding `mandelbrotGo` at exhausted fuel. -/
theorem mandelbrotGo_zero (c z : ℚ × ℚ) (i : ℕ) :
    mandelbrotGo c z i 0 = (MAX_ITERATIONS, MAX_ITERATIONS) := rfl

/-- Unfolding one iteration of `mandelbrotGo`. -/
theorem mandelbrotGo_succ (c z : ℚ × ℚ) (i fuel : ℕ) :
    mandelbrotGo c z i (fuel + 1) =
      if 4 < normSq (step c z) then (i, i)
      else mandelbrotGo c (step c z) (i + 1) fuel := rfl

/-- Starting the orbit one update later shifts its index by one. -/
theorem orbitFrom_step (c z : ℚ × ℚ) (n : ℕ) :
    orbitFrom c (step c z) n = orbitFrom c z (n + 1) := by
  induction n with
  | zero => rfl
  | succ n ih => simp [orbitFrom, ih]

/-- Both channels of the loop always carry the same value. -/
theorem mandelbrotGo_fst_eq_snd (c : ℚ × ℚ) :
    ∀ (fuel : ℕ) (z : ℚ × ℚ) (i : ℕ),
      (mandelbrotGo c z i fuel).1 = (mandelbrotGo c z i fuel).2 := by
  intro fuel
  induction fuel with
  | zero => intro z i; rfl
  | succ fuel ih =>
    intro z i
    rw [mandelbrotGo_succ]
    by_cases h : 4 < normSq (step c z)
    · rw [if_pos h]
    · rw [if_neg h]; exact ih (step c z) (i + 1)

/-- The returned value never exceeds the iteration cap. -/
theorem mandelbrotGo_fst_le (c : ℚ × ℚ) :
    ∀ (fuel : ℕ) (z : ℚ × ℚ) (i : ℕ), i + fuel = MAX_ITERATIONS →
      (mandelbrotGo c z i fuel).1 ≤ MAX_ITERATIONS := by
  intro fuel
  induction fuel with
  | zero => intro z i h; rw [mandelbrotGo_zero]
  | succ fuel ih =>
    intro z i h
    rw [mandelbrotGo_succ]
    by_cases hesc : 4 < normSq (step c z)
    · rw [if_pos hesc]; show i ≤ MAX_ITERATIONS; omega
    · rw [if_neg hesc]; exact ih (step c z) (i + 1) (by omega)

/-- The loop reports the cap exactly when no inspected orbit value escapes. -/
theorem mandelbrotGo_eq_max_iff (c : ℚ × ℚ) :
    ∀ (fuel : ℕ) (z : ℚ × ℚ) (i : ℕ), i + fuel = MAX_ITERATIONS →
      ((mandelbrotGo c z i fuel).1 = MAX_ITERATIONS ↔
        ∀ k, k < fuel → ¬ 4 < normSq (orbitFrom c z (k + 1))) := by
  intro fuel
  induction fuel with
  | zero =>
    intro z i h
    rw [mandelbrotGo_zero]
    simp
  | succ fuel ih =>
    intro z i h
    rw [mandelbrotGo_succ]
    by_cases hesc : 4 < normSq (step c z)
    · rw [if_pos hesc]
      apply iff_of_false
      · show ¬ i = MAX_ITERATIONS; omega
      · intro hall
        exact hall 0 (by omega) (by simpa [orbitFrom] using hesc)
    · rw [if_neg hesc, ih (step c z) (i + 1) (by omega)]
      constructor
      · intro hall k hk
        match k with
        | 0 => simpa [orbitFrom] using hesc
        | k + 1 =>
          have := hall k (by omega)
          rwa [orbitFrom_step] at this
      · intro hall k hk
        have := hall (k + 1) (by omega)
        rwa [← orbitFrom_step] at this

/-! ## The claims -/

/-- C1: for every complex coordinate `c`, `mandelbrot` returns a value in
`[0, MAX_ITERATIONS]`, and the returned value equals `MAX_ITERATIONS`
exactly when the orbit magnitude never exceeded `2` (equivalently, its
square never exceeded `4`) across all `MAX_ITERATIONS` updates from
`z₀ = 0`.  The lower bound `0 ≤ mandelbrot c` holds because the count is
a natural number. -/
theorem mandelbrot_range_and_cap_iff (c : ℚ × ℚ) :
    mandelbrot c ≤ MAX_ITERATIONS ∧
    (mandelbrot c = MAX_ITERATIONS ↔
      ∀ k : Fin MAX_ITERATIONS, ¬ 4 < normSq (orbit c (k.1 + 1))) := by
  constructor
  · exact mandelbrotGo_fst_le c MAX_ITERATIONS (0, 0) 0 (by omega)
  · rw [show mandelbrot c = (mandelbrotGo c ((0 : ℚ), (0 : ℚ)) 0 MAX_ITERATIONS).1 from rfl,
      mandelbrotGo_eq_max_iff c MAX_ITERATIONS ((0 : ℚ), (0 : ℚ)) 0 (by omega)]
    constructor
    · intro h k
      exact h k.1 k.2
    · intro h k hk
      exact h ⟨k, hk⟩

/-- C2: one call of the renderer emits exactly `HEIGHT` rows, each row has
exactly `WIDTH` characters, every character is a blank or an asterisk, and
the character at pixel `(x, y)` is a blank exactly when the iteration count
the evaluator leaves in its output parameter equals `MAX_ITERATIONS`.
The row structure of the result list is the row-major emission order with
one line break after each row. -/
theorem renderMandelbrot_frame_spec (zoom offsetX offsetY : ℚ) :
    (renderMandelbrot zoom offsetX offsetY).length = HEIGHT ∧
    ((renderMandelbrot zoom offsetX offsetY).all
      (fun row => row.length == WIDTH && row.all (fun ch => ch == ' ' || ch == '*'))) = true ∧
    ∀ (y : Fin HEIGHT) (x : Fin WIDTH),
      ((renderMandelbrot zoom offsetX offsetY).getD y.1 []).getD x.1 'X' =
        if (mandelbrotPair (pixelToComplex x.1 y.1 zoom offsetX offsetY)).2 = MAX_ITERATIONS
          then ' ' else '*' := by
  refine ⟨by simp [renderMandelbrot], ?_, ?_⟩
  · rw [List.all_eq_true]
    intro row hrow
    rw [renderMandelbrot, List.mem_map] at hrow
    obtain ⟨y, _, rfl⟩ := hrow
    rw [Bool.and_eq_true]
    refine ⟨by simp [renderRow], ?_⟩
    rw [List.all_eq_true]
    intro ch hch
    rw [renderRow, List.mem_map] at hch
    obtain ⟨x, _, rfl⟩ := hch
    simp only [pixelChar]
    split <;> decide
  · intro y x
    have hy : y.1 < ((List.range HEIGHT).map
        (fun y => renderRow zoom offsetX offsetY y)).length := by
      simp
    rw [renderMandelbrot, List.getD_eq_getElem _ _ hy, List.getElem_map, List.getElem_range]
    have hx : x.1 < ((List.range WIDTH).map
        (fun x => pixelChar zoom offsetX offsetY x y.1)).length := by
      simp
    rw [renderRow, List.getD_eq_getElem _ _ hx, List.getElem_map, List.getElem_range]
    simp only [pixelChar]

/-- C3: for every in-range pixel pair and every view-parameter triple, the
coordinate mapper returns real part `(x/WIDTH * 4 - 2) / zoom + offsetX`
and imaginary part `(y/HEIGHT * 4 - 2) / zoom + offsetY`. -/
theorem pixelToComplex_formula (x y : ℕ) (zoom offsetX offsetY : ℚ)
    (_hx : x < WIDTH) (_hy : y < HEIGHT) :
    pixelToComplex x y zoom offsetX offsetY =
      (((x : ℚ) / (WIDTH : ℚ) * 4 - 2) / zoom + offsetX,
       ((y : ℚ) / (HEIGHT : ℚ) * 4 - 2) / zoom + offsetY) := rfl

/-- Witness for C3, at pixel `(0, 0)` with `zoom = 1`, offsets `(2, 3)`. -/
theorem pixelToComplex_formula_witness :
    0 < WIDTH ∧ 0 < HEIGHT ∧
    pixelToComplex 0 0 1 2 3 =
      ((((0 : ℕ) : ℚ) / (WIDTH : ℚ) * 4 - 2) / 1 + 2,
       (((0 : ℕ) : ℚ) / (HEIGHT : ℚ) * 4 - 2) / 1 + 3) :=
  ⟨by decide, by decide, pixelToComplex_formula 0 0 1 2 3 (by decide) (by decide)⟩

/-- C4: for every iteration count in `[0, MAX_ITERATIONS]`, `getColor`
returns `(0, 0, 0)` at the cap, and otherwise the triple
`(r, r / 2, r / 4)` with `r = iterations * 10 % 256`, the divisions being
integer divisions. -/
theorem getColor_spec (iterations : ℕ) (_h : iterations ≤ MAX_ITERATIONS) :
    (iterations = MAX_ITERATIONS → getColor iterations = ⟨0, 0, 0⟩) ∧
    (iterations < MAX_ITERATIONS →
      getColor iterations =
        ⟨iterations * 10 % 256, iterations * 10 % 256 / 2, iterations * 10 % 256 / 4⟩) := by
  constructor
  · intro heq
    simp [getColor, heq]
  · intro hlt
    simp [getColor, hlt.ne]

/-- Witness for C4, at `iterations = 5`: the color is `(50, 25, 12)`. -/
theorem getColor_spec_witness :
    (5 : ℕ) ≤ MAX_ITERATIONS ∧ (5 : ℕ) < MAX_ITERATIONS ∧ getColor 5 = ⟨50, 25, 12⟩ :=
  ⟨by decide, by decide, (getColor_spec 5 (by decide)).2 (by decide)⟩

/-- The escape-time loop never escapes at the origin: with `c = 0` the orbit
stays at `0`, so every fuel level reports the iteration cap on both
channels. -/
theorem mandelbrotGo_origin :
    ∀ (fuel i : ℕ),
      mandelbrotGo ((0 : ℚ), (0 : ℚ)) ((0 : ℚ), (0 : ℚ)) i fuel =
        (MAX_ITERATIONS, MAX_ITERATIONS) := by
  intro fuel
  induction fuel with
  | zero => intro i; rfl
  | succ fuel ih =>
    intro i
    have hstep : step ((0 : ℚ), (0 : ℚ)) ((0 : ℚ), (0 : ℚ)) = ((0 : ℚ), (0 : ℚ)) := by
      norm_num [step]
    rw [mandelbrotGo_succ, hstep, if_neg (by norm_num [normSq])]
    exact ih (i + 1)

/-- C5: the evaluator returns `MAX_ITERATIONS` at `c = 0 + 0i` and `0` at
`c = 3 + 0i`; in the default view (`zoom = 1`, offsets `0`) the center
pixel `(WIDTH / 2, HEIGHT / 2)` maps to `c = (0, 0)` and the renderer
draws it as a blank. -/
theorem mandelbrot_fixed_points_center :
    mandelbrot ((0 : ℚ), (0 : ℚ)) = MAX_ITERATIONS ∧
    mandelbrot ((3 : ℚ), (0 : ℚ)) = 0 ∧
    pixelToComplex (WIDTH / 2) (HEIGHT / 2) 1 0 0 = ((0 : ℚ), (0 : ℚ)) ∧
    pixelChar 1 0 0 (WIDTH / 2) (HEIGHT / 2) = ' ' := by
  have hcenter : pixelToComplex (WIDTH / 2) (HEIGHT / 2) 1 0 0 = ((0 : ℚ), (0 : ℚ)) := by
    norm_num [pixelToComplex, WIDTH, HEIGHT]
  refine ⟨?_, ?_, hcenter, ?_⟩
  · rw [mandelbrot, mandelbrotPair, mandelbrotGo_origin]
  · rw [mandelbrot, mandelbrotPair, show MAX_ITERATIONS = 99 + 1 from rfl, mandelbrotGo_succ,
      if_pos (by norm_num [step, normSq])]
  · simp only [pixelChar, hcenter]
    rw [mandelbrotPair, mandelbrotGo_origin]
    simp

/-- C8: the renderer is deterministic in its view parameters — two calls
with identical parameters produce identical character output; nothing else
influences the result. -/
theorem renderMandelbrot_deterministic (zoom1 offX1 offY1 zoom2 offX2 offY2 : ℚ)
    (hzoom : zoom1 = zoom2) (hoffX : offX1 = offX2) (hoffY : offY1 = offY2) :
    renderMandelbrot zoom1 offX1 offY1 = renderMandelbrot zoom2 offX2 offY2 := by
  rw [hzoom, hoffX, hoffY]

/-- Witness for C8, at the default view parameters of the driver. -/
theorem renderMandelbrot_deterministic_witness :
    renderMandelbrot 1 0 0 = renderMandelbrot 1 0 0 :=
  renderMandelbrot_deterministic 1 0 0 1 0 0 rfl rfl rfl

/-- C9: for every complex coordinate, the value `mandelbrot` returns and
the value it writes through its `iterations` output parameter agree. -/
theorem mandelbrot_channels_agree (c : ℚ × ℚ) :
    (mandelbrotPair c).1 = (mandelbrotPair c).2 :=
  mandelbrotGo_fst_eq_snd c MAX_ITERATIONS (0, 0) 0

/-- C10: every coordinate outside the closed radius-2 disc (stated via the
squared magnitude, `|c|² > 4`) escapes at the very first orbit update,
so the evaluator returns `0`. -/
theorem mandelbrot_outside_disc_zero (c : ℚ × ℚ) (h : 4 < normSq c) :
    mandelbrot c = 0 := by
  have hstep : step c ((0 : ℚ), (0 : ℚ)) = c := by
    rcases c with ⟨a, b⟩
    norm_num [step]
  rw [mandelbrot, mandelbrotPair, show MAX_ITERATIONS = 99 + 1 from rfl, mandelbrotGo_succ,
    hstep, if_pos h]

/-- Witness for C10, at `c = 3 + 0i`: `|c|² = 9 > 4` and the count is `0`. -/
theorem mandelbrot_outside_disc_zero_witness :
    4 < normSq ((3 : ℚ), (0 : ℚ)) ∧ mandelbrot ((3 : ℚ), (0 : ℚ)) = 0 :=
  ⟨by norm_num [normSq], mandelbrot_outside_disc_zero ((3 : ℚ), (0 : ℚ)) (by norm_num [normSq])⟩
